import Mathlib

/-!
# Verification of the cache-aside hierarchy subsystem

A shallow embedding of the cache-aside hierarchy subsystem of an
Express/MySQL/Redis organizational-tree service, together with theorems
settling the specification's claims about it.

The embedding models:

* the relational store (`Db`) as lists of `group` and `person` rows, with
  point lookup (`SELECT ... WHERE id = ?`) and child lookup
  (`SELECT ... WHERE parentGroupId = ?`) as list searches;
* the Redis cache as an association list of entries with expiry timestamps,
  with `GET`/`SETEX`/`DEL`/`KEYS prefix*` as list operations
  (`cacheGet`, `setex`, `redisDel`, `clearKeysStartingWith`);
* `getOrSetCache` from `helpers/redis_helpers` as a state-passing function
  whose compute callback may itself touch the cache;
* the ancestor traversal `fetchGroupHierarchyAbove` (helper of the same
  name) and its inner recursive function `fetchparentGroupRecursive`;
* the descendant traversal `fetchGroupHierarchyBelow`
  (`helpers/fetchGroupHierarchyBelow.ts`), whose recursive self-calls go
  through the cache, so the cache is threaded through the recursion;
* the `updateGroup` controller's circular-reference guard and write
  sequence, and the group-write cache-invalidation step shared by
  `createGroup` / `updateGroup` / `deleteGroup`.

JSON serialization/deserialization of cached values is modelled as the
identity (values are stored as they are), and `JSON.stringify` of filter
arrays is reproduced as a string-building function. Unbounded recursion in
the two traversals (the source has no cycle guard; cycles are prevented at
write time) is modelled with an explicit fuel parameter; running out of
fuel yields a distinguished error value that does not occur in the source.
-/

/-! ## Data model: rows of the relational store -/

/-- A row of the `group` table: `id`, `groupName`, nullable `parentGroupId`,
and the `updatedAt` bookkeeping column touched by the write paths. -/
structure GroupRow where
  id : Nat
  groupName : String
  parentGroupId : Option Nat
  updatedAt : Nat
deriving DecidableEq, Repr

/-- A row of the `person` table: `id`, name/job attributes, nullable
`groupId` foreign key. -/
structure PersonRow where
  id : Nat
  firstName : String
  lastName : String
  jobTitle : String
  groupId : Option Nat
deriving DecidableEq, Repr

/-- The relational store seen through the queries the core issues. -/
structure Db where
  groups : List GroupRow
  persons : List PersonRow
deriving DecidableEq, Repr

/-- `SELECT ... FROM group WHERE id = ?` followed by taking row `[0]`. -/
def lookupGroup (db : Db) (gid : Nat) : Option GroupRow :=
  db.groups.find? (fun g => g.id == gid)

/-- `SELECT ... FROM group WHERE id = ?` with a nullable id parameter:
`WHERE id = NULL` matches no row. -/
def lookupGroupOpt (db : Db) : Option Nat → Option GroupRow
  | none => none
  | some gid => lookupGroup db gid

/-- `SELECT id, groupName FROM group WHERE parentGroupId = ?`. -/
def childGroups (db : Db) (gid : Nat) : List GroupRow :=
  db.groups.filter (fun g => g.parentGroupId == some gid)

/-! ## Cache model (Redis) -/

/-- One Redis entry: a key, a stored value (serialization is modelled as
the identity) and the absolute expiry timestamp set by `SETEX`. -/
structure CacheEntry (V : Type) where
  key : String
  value : V
  expiresAt : Nat
deriving DecidableEq, Repr

/-- The cache key space. The head-most entry for a key shadows older ones
(`setex` prepends after removing the key's previous entries). -/
abbrev Cache (V : Type) := List (CacheEntry V)

/-- `redisClient.get key` at time `now`: a live (non-expired) entry's value,
or `none` when the key is absent or expired. -/
def cacheGet {V : Type} (now : Nat) (cache : Cache V) (key : String) : Option V :=
  match cache.find? (fun e => e.key == key) with
  | some e => if now < e.expiresAt then some e.value else none
  | none => none

/-- `redisClient.setex key ttl value` at time `now`. -/
def setex {V : Type} (cache : Cache V) (key : String) (ttl : Nat) (now : Nat) (v : V) :
    Cache V :=
  ⟨key, v, now + ttl⟩ :: cache.filter (fun e => !(e.key == key))

/-- `redisClient.del key`. -/
def redisDel {V : Type} (cache : Cache V) (key : String) : Cache V :=
  cache.filter (fun e => !(e.key == key))

/-- `const DEFAULT_EXPIRATION: number = 3600` from `redis_helpers`. -/
def DEFAULT_EXPIRATION : Nat := 3600

/-- `clearKeysStartingWith(prefix)` from `redis_helpers`:
`redisClient.keys(prefix + "*")` followed by `del` of every match; zero
matches leave the cache unchanged. -/
def clearKeysStartingWith {V : Type} (cache : Cache V) (pre : String) : Cache V :=
  cache.filter (fun e => !(pre.data.isPrefixOf e.key.data))

/-- `getOrSetCache(key, cb)` from `redis_helpers`: on a live entry, return
its stored value without invoking `cb`; on a miss, run `cb` (which may
itself read and write the cache, as the recursive subtree traversal does),
and only if it succeeds store its result under `key` with
`DEFAULT_EXPIRATION` and return it; a failing `cb` rejects the promise and
`setex` is never reached. -/
def getOrSetCache {V : Type} (now : Nat) (cache : Cache V) (key : String)
    (cb : Cache V → Except String V × Cache V) : Except String V × Cache V :=
  match cacheGet now cache key with
  | some v => (Except.ok v, cache)
  | none =>
    match cb cache with
    | (Except.error e, c') => (Except.error e, c')
    | (Except.ok v, c') => (Except.ok v, setex c' key DEFAULT_EXPIRATION now v)

/-! ## Cache keys

The literal key strings built by the source. Note the ancestor key: the
source template is `group_above_${groupId}}` — singular `group`, and a
stray closing brace at the end of the template literal. -/

/-- Key built in `getPersons` for a point lookup. -/
def personIdKey (id : Nat) : String := "person_id_" ++ toString id

/-- Aggregate key for all persons. -/
def allPersonsKey : String := "all_persons"

/-- Aggregate key for all groups. -/
def allGroupsKey : String := "all_groups"

/-- Key built in `fetchGroupHierarchyAbove`: the template literal
`group_above_${groupId}}` includes a trailing closing brace. -/
def aboveKey (gid : Nat) : String := "group_above_" ++ toString gid ++ "\x7d"

/-- One element of the `filterCriteria` array: an object with optional
`jobTitle` and `firstName` properties. -/
structure FilterCriteria where
  jobTitle : Option String
  firstName : Option String
deriving DecidableEq, Repr

/-- JSON string escaping for the characters that matter in these keys. -/
def jsonEscape (s : String) : String :=
  s.data.foldl
    (fun acc c =>
      acc ++ (if c = '\\' then "\\\\" else if c = '"' then "\\\"" else String.singleton c))
    ""

/-- `JSON.stringify` of one filter object: present properties in interface
order, absent ones omitted. -/
def jsonOfCriteria (c : FilterCriteria) : String :=
  let fields :=
    (match c.jobTitle with
     | some s => ["\"jobTitle\":\"" ++ jsonEscape s ++ "\""]
     | none => []) ++
    (match c.firstName with
     | some s => ["\"firstName\":\"" ++ jsonEscape s ++ "\""]
     | none => [])
  "\x7b" ++ String.intercalate "," fields ++ "\x7d"

/-- `JSON.stringify(filterCriteria)`: the literal, order-sensitive
serialization of the filter array. -/
def jsonFilters (fs : List FilterCriteria) : String :=
  "[" ++ String.intercalate "," (fs.map jsonOfCriteria) ++ "]"

/-- Key built in `fetchGroupHierarchyBelow`:
`groups_below_${groupId}_${JSON.stringify(filterCriteria)}`. -/
def belowKey (gid : Nat) (fs : List FilterCriteria) : String :=
  "groups_below_" ++ toString gid ++ "_" ++ jsonFilters fs

/-! ## Ancestor traversal (`helpers/fetchGroupHierarchyAbove`) -/

/-- The transient ancestor view built by the traversal:
`{id, groupName, parentGroup: Group[]}`, the array holding the single
parent node or nothing. -/
inductive AncestorNode where
  | mk (id : Nat) (groupName : String) (parentGroup : List AncestorNode)

/-- The `id` field of an ancestor node. -/
def AncestorNode.id : AncestorNode → Nat
  | .mk i _ _ => i

/-- The `groupName` field of an ancestor node. -/
def AncestorNode.groupName : AncestorNode → String
  | .mk _ nm _ => nm

/-- The `parentGroup` array of an ancestor node. -/
def AncestorNode.parentGroup : AncestorNode → List AncestorNode
  | .mk _ _ ps => ps

/-- The `Group | { error }` result union of the ancestor helper. -/
inductive AboveResult where
  | ok (g : AncestorNode)
  | err (msg : String)

/-- The error message `Group with ID ${groupId} not found`, shared by both
traversal helpers. -/
def groupNotFoundMsg (gid : Nat) : String :=
  "Group with ID " ++ toString gid ++ " not found"

/-- Marker message for the fuel-exhaustion case that the model introduces;
the source instead recurses unboundedly on a cyclic store. -/
def outOfFuelMsg : String := "model: out of fuel"

/-- The inner recursive function of `fetchGroupHierarchyAbove`: re-fetch
the current row (stop if absent), fetch the row named by its
`parentGroupId` (stop if null or dangling), and otherwise attach exactly
one parent node whose own `parentGroup` is filled in recursively. The
source mutates `currentGroup.parentGroup` by `push`; the model returns the
resulting `parentGroup` array. -/
def fetchparentGroupRecursive (db : Db) : Nat → Nat → List AncestorNode
  | 0, _ => []
  | fuel + 1, curId =>
    match lookupGroup db curId with
    | none => []
    | some curRow =>
      match lookupGroupOpt db curRow.parentGroupId with
      | none => []
      | some parentRow =>
        [AncestorNode.mk parentRow.id parentRow.groupName
          (fetchparentGroupRecursive db fuel parentRow.id)]

/-- The compute step of `fetchGroupHierarchyAbove` (the callback passed to
`getOrSetCache`): fetch the root row, `{error}` if absent, otherwise build
its node and fill the ancestor chain recursively. -/
def computeAbove (db : Db) (fuel : Nat) (gid : Nat) : AboveResult :=
  match lookupGroup db gid with
  | none => AboveResult.err (groupNotFoundMsg gid)
  | some row =>
    AboveResult.ok (AncestorNode.mk row.id row.groupName
      (fetchparentGroupRecursive db fuel gid))

/-- `fetchGroupHierarchyAbove(groupId)`: the compute step behind
`getOrSetCache` under the key `aboveKey groupId`. Its callback only
queries the store, never the cache, and never rejects. -/
def fetchGroupHierarchyAbove (db : Db) (fuel : Nat) (now : Nat)
    (cache : Cache AboveResult) (gid : Nat) :
    Except String AboveResult × Cache AboveResult :=
  getOrSetCache now cache (aboveKey gid)
    (fun c => (Except.ok (computeAbove db fuel gid), c))

/-- A node is a single chain: its `parentGroup` array holds at most one
element, recursively. -/
def isChain : AncestorNode → Bool
  | .mk _ _ [] => true
  | .mk _ _ [p] => isChain p
  | .mk _ _ (_ :: _ :: _) => false

/-! ## Descendant traversal (`helpers/fetchGroupHierarchyBelow.ts`) -/

/-- The projection of a person row that the subtree traversal stores at
each level (the `groupId` column is dropped when the node is built). -/
structure Person where
  id : Nat
  firstName : String
  lastName : String
  jobTitle : String
deriving DecidableEq, Repr

/-- The transient subtree view:
`{id, groupName, persons: Person[], groups: Group[]}`. -/
inductive SubtreeNode where
  | mk (id : Nat) (groupName : String) (persons : List Person) (groups : List SubtreeNode)

/-- The `id` field of a subtree node. -/
def SubtreeNode.id : SubtreeNode → Nat
  | .mk i _ _ _ => i

/-- The `groupName` field of a subtree node. -/
def SubtreeNode.groupName : SubtreeNode → String
  | .mk _ nm _ _ => nm

/-- The `persons` array of a subtree node. -/
def SubtreeNode.persons : SubtreeNode → List Person
  | .mk _ _ ps _ => ps

/-- The `groups` array of a subtree node. -/
def SubtreeNode.groups : SubtreeNode → List SubtreeNode
  | .mk _ _ _ gs => gs

/-- The `Group | { error }` result union of the subtree helper. -/
inductive BelowResult where
  | ok (g : SubtreeNode)
  | err (msg : String)

/-- One SQL equality condition contributed by a truthy filter property
(JavaScript truthiness: an empty string contributes no condition). -/
def condHolds (v : Option String) (field : String) : Bool :=
  match v with
  | some s => if s == "" then true else field == s
  | none => true

/-- A person row satisfies one filter object when it satisfies each
condition the object contributes. -/
def matchesCriteria (c : FilterCriteria) (p : PersonRow) : Bool :=
  condHolds c.jobTitle p.jobTitle && condHolds c.firstName p.firstName

/-- `SELECT id, firstName, lastName, jobTitle, groupId FROM person WHERE
groupId = ? AND <cond> AND <cond> ...`: persons directly in the group
satisfying every contributed condition (conjunctive), projected to the
fields the node stores. -/
def personsMatching (db : Db) (gid : Nat) (fs : List FilterCriteria) : List Person :=
  (db.persons.filter
      (fun p => p.groupId == some gid && fs.all (fun c => matchesCriteria c p))).map
    (fun p => ⟨p.id, p.firstName, p.lastName, p.jobTitle⟩)

/-- The child loop of `fetchGroupHierarchyBelow`: recursively fetch each
direct child through the supplied (cached, cache-threading) fetch
function; on the first `{error}` result, stop and return that error
(short-circuit, no partial assembly); otherwise collect one rebuilt node
per child row. -/
def processChildren (fetchRec : Cache BelowResult → Nat → BelowResult × Cache BelowResult) :
    Cache BelowResult → List GroupRow → (String ⊕ List SubtreeNode) × Cache BelowResult
  | cache, [] => (Sum.inr [], cache)
  | cache, c :: rest =>
    match fetchRec cache c.id with
    | (BelowResult.err e, c1) => (Sum.inl e, c1)
    | (BelowResult.ok node, c1) =>
      match processChildren fetchRec c1 rest with
      | (Sum.inl e, c2) => (Sum.inl e, c2)
      | (Sum.inr ns, c2) =>
        (Sum.inr (SubtreeNode.mk c.id c.groupName node.persons node.groups :: ns), c2)

/-- One unfolding of `fetchGroupHierarchyBelow` past its cache check:
fetch the root row (`{error}` if absent — and that error value is itself
cached), fetch the filtered persons, run the child loop, and cache the
resulting value (success or error object alike) under the key. -/
def fetchBelowGo (db : Db) (fs : List FilterCriteria) (now : Nat)
    (fetchRec : Cache BelowResult → Nat → BelowResult × Cache BelowResult)
    (cache : Cache BelowResult) (gid : Nat) : BelowResult × Cache BelowResult :=
  match lookupGroup db gid with
  | none =>
    let v := BelowResult.err (groupNotFoundMsg gid)
    (v, setex cache (belowKey gid fs) DEFAULT_EXPIRATION now v)
  | some row =>
    match processChildren fetchRec cache (childGroups db gid) with
    | (Sum.inl e, c1) =>
      let v := BelowResult.err e
      (v, setex c1 (belowKey gid fs) DEFAULT_EXPIRATION now v)
    | (Sum.inr ns, c1) =>
      let v := BelowResult.ok (SubtreeNode.mk gid row.groupName (personsMatching db gid fs) ns)
      (v, setex c1 (belowKey gid fs) DEFAULT_EXPIRATION now v)

/-- `fetchGroupHierarchyBelow(groupId, filterCriteria)`: the whole call is
wrapped in `getOrSetCache` under `belowKey groupId filterCriteria`, and the
recursive per-child calls go through this same cached entry point, so the
cache is read and written at every level. Fuel bounds the recursion depth
(the source recurses unboundedly); the callback never rejects, so the
`getOrSetCache` wrapper is inlined with its error branch dropped. -/
def fetchGroupHierarchyBelow (db : Db) (fs : List FilterCriteria) (now : Nat) :
    Nat → Cache BelowResult → Nat → BelowResult × Cache BelowResult
  | 0, cache, gid =>
    match cacheGet now cache (belowKey gid fs) with
    | some v => (v, cache)
    | none => (BelowResult.err outOfFuelMsg, cache)
  | fuel + 1, cache, gid =>
    match cacheGet now cache (belowKey gid fs) with
    | some v => (v, cache)
    | none => fetchBelowGo db fs now (fetchGroupHierarchyBelow db fs now fuel) cache gid

/-! ## Group writes (`groups-controller`) -/

/-- `Number(x)` on the nullable new-parent value: `Number(null) = 0`. -/
def jsNumber : Option Nat → Nat
  | none => 0
  | some n => n

/-- JavaScript truthiness of an optional string field from the request
body: absent and empty strings are falsy. -/
def jsTruthyStr : Option String → Bool
  | some s => !(s == "")
  | none => false

/-- Ids of rows whose `parentGroupId` lies in the set reached so far (one
expansion step of the recursive CTE's child walk). -/
def childIdsOfSet (db : Db) (s : List Nat) : List Nat :=
  (db.groups.filter
      (fun g => match g.parentGroupId with
        | some p => s.contains p
        | none => false)).map
    (fun g => g.id)

/-- Iterated expansion of the recursive CTE `Descendants`, accumulating
until no new id appears (on the acyclic trees the guard maintains this is
the CTE's least fixpoint; `db.groups.length` rounds always suffice). -/
def descendantAcc (db : Db) : Nat → List Nat → List Nat
  | 0, acc => acc
  | fuel + 1, acc =>
    let fresh := (childIdsOfSet db acc).filter (fun i => !(acc.contains i))
    match fresh with
    | [] => acc
    | _ :: _ => descendantAcc db fuel (acc ++ fresh)

/-- The `WITH RECURSIVE Descendants` query of `updateGroup`: the id set
seeded with the row(s) matching the group being updated and closed under
the child relation, as read on the pre-edit tree. -/
def descendantIds (db : Db) (gid : Nat) : List Nat :=
  descendantAcc db db.groups.length
    ((db.groups.filter (fun g => g.id == gid)).map (fun g => g.id))

/-- `UPDATE group SET parentGroupId = NULL WHERE id = ?`. -/
def setParentNull (db : Db) (gid : Nat) : Db :=
  { db with
    groups := db.groups.map
      (fun g => if g.id == gid then { g with parentGroupId := none } else g) }

/-- `UPDATE group SET updatedAt = CURRENT_TIMESTAMP WHERE id = ?` with a
nullable id: `WHERE id = NULL` touches no row. -/
def touchGroup (db : Db) (now : Nat) : Option Nat → Db
  | none => db
  | some gid =>
    { db with
      groups := db.groups.map
        (fun g => if g.id == gid then { g with updatedAt := now } else g) }

/-- The final `UPDATE group SET <fields> WHERE id = ?` assembled from the
pushed `updateFields`. -/
def applyGroupUpdate (db : Db) (id : Nat) (gName : Option String)
    (pgid : Option (Option Nat)) : Db :=
  { db with
    groups := db.groups.map
      (fun g =>
        if g.id == id then
          { g with
            groupName := (match gName with | some n => n | none => g.groupName),
            parentGroupId := (match pgid with | some p => p | none => g.parentGroupId) }
        else g) }

/-- The response outcomes of `updateGroup`: 404 `Group not found.`,
400 `Circular reference detected.` (the structural-conflict rejection),
400 `Error updating group.` (new parent equals the group itself),
400 `No fields to update.`, and the 200 success path. -/
inductive UpdateGroupResult where
  | notFound
  | circular
  | selfParent
  | noFields
  | success
deriving DecidableEq, Repr

/-- `updateGroup` on the store: check existence; when a `parentGroupId`
field is present in the body (`!== undefined`, i.e. `some` here — with
`some none` standing for an explicit `null`), run the circular-reference
guard against the pre-edit descendant set before anything is written; then
perform the side writes (current row's parent nulled, new parent's
`updatedAt` touched) and the assembled field update. Returns the outcome
and the resulting store; every rejection path returns the store
unchanged. -/
def updateGroup (db : Db) (now : Nat) (id : Nat) (gName : Option String)
    (pgid : Option (Option Nat)) : UpdateGroupResult × Db :=
  match lookupGroup db id with
  | none => (UpdateGroupResult.notFound, db)
  | some existing =>
    let gName' := if jsTruthyStr gName then gName else none
    match pgid with
    | some newParent =>
      if (descendantIds db existing.id).contains (jsNumber newParent) then
        (UpdateGroupResult.circular, db)
      else if newParent == some existing.id then
        (UpdateGroupResult.selfParent, db)
      else
        let db1 := setParentNull db existing.id
        let db2 := touchGroup db1 now newParent
        (UpdateGroupResult.success, applyGroupUpdate db2 id gName' (some newParent))
    | none =>
      if jsTruthyStr gName then
        (UpdateGroupResult.success, applyGroupUpdate db id gName' none)
      else
        (UpdateGroupResult.noFields, db)

/-- The cache-invalidation step shared by `createGroup`, `updateGroup` and
`deleteGroup`: `del("all_groups")`, then
`clearKeysStartingWith("groups_below_")`, then
`clearKeysStartingWith("groups_above_")`. -/
def invalidateGroupCaches {V : Type} (cache : Cache V) : Cache V :=
  clearKeysStartingWith
    (clearKeysStartingWith (redisDel cache allGroupsKey) "groups_below_")
    "groups_above_"

/-! ## Views of the computed trees used by the theorems -/

mutual

/-- Every node of a subtree result: the node itself and, recursively,
every node of each child ("each level" of the result). -/
def nodesOf : SubtreeNode → List SubtreeNode
  | .mk i nm ps gs => SubtreeNode.mk i nm ps gs :: nodesOfList gs

/-- Nodes of a list of subtrees. -/
def nodesOfList : List SubtreeNode → List SubtreeNode
  | [] => []
  | g :: gs => nodesOf g ++ nodesOfList gs

end

/-- A subtree node is well-formed for `db` and `fs` when its `persons`
array is exactly the conjunctively filtered direct members of its group,
and recursively so at every child level. -/
inductive NodeOk (db : Db) (fs : List FilterCriteria) : SubtreeNode → Prop where
  | mk : ∀ (i : Nat) (nm : String) (gs : List SubtreeNode),
      (∀ g ∈ gs, NodeOk db fs g) →
      NodeOk db fs (SubtreeNode.mk i nm (personsMatching db i fs) gs)

/-- Invariant threaded through the subtree traversal: every cached entry
sitting in the subtree key space for the current filters that holds a
successful value holds the well-formed subtree of exactly the keyed
group. -/
def BelowInv (db : Db) (fs : List FilterCriteria) (cache : Cache BelowResult) : Prop :=
  ∀ e ∈ cache, ∀ g : Nat, e.key = belowKey g fs → ∀ node, e.value = BelowResult.ok node →
    node.id = g ∧ NodeOk db fs node

/-- A fetch function is sound when, from an invariant-satisfying cache, it
preserves the invariant and any successful result is the well-formed
subtree of the requested group. -/
def FetchOkProp (db : Db) (fs : List FilterCriteria)
    (fetch : Cache BelowResult → Nat → BelowResult × Cache BelowResult) : Prop :=
  ∀ (cache : Cache BelowResult) (gid : Nat) (r : BelowResult) (c' : Cache BelowResult),
    BelowInv db fs cache → fetch cache gid = (r, c') →
    BelowInv db fs c' ∧
    ∀ node, r = BelowResult.ok node → node.id = gid ∧ NodeOk db fs node

/-! ## Decimal rendering is injective

Distinct group ids produce distinct cache keys; this chain of lemmas about
the core decimal printer establishes that, ending in `belowKey_inj`. -/

/-- Numeric value a decimal digit character stands for. -/
def digitVal (c : Char) : Nat := c.toNat - '0'.toNat

theorem toDigitsCore_acc (fuel : Nat) : ∀ (n : Nat) (ds : List Char),
    Nat.toDigitsCore 10 fuel n ds = Nat.toDigitsCore 10 fuel n [] ++ ds := by
  induction fuel with
  | zero => intro n ds; simp [Nat.toDigitsCore]
  | succ fuel ih =>
    intro n ds
    simp only [Nat.toDigitsCore]
    split
    · simp
    · rw [ih (n / 10) (Nat.digitChar (n % 10) :: ds), ih (n / 10) [Nat.digitChar (n % 10)]]
      simp

theorem toDigitsCore_fuel : ∀ (n f1 f2 : Nat) (ds : List Char), n < f1 → n < f2 →
    Nat.toDigitsCore 10 f1 n ds = Nat.toDigitsCore 10 f2 n ds := by
  intro n
  induction n using Nat.strongRecOn with
  | _ n ih =>
    intro f1 f2 ds h1 h2
    match f1, f2 with
    | g1 + 1, g2 + 1 =>
      simp only [Nat.toDigitsCore]
      split
      · rfl
      · have hlt : n / 10 < n := by omega
        exact ih (n / 10) hlt g1 g2 _ (by omega) (by omega)

theorem digitVal_digitChar {n : Nat} (h : n < 10) :
    digitVal (Nat.digitChar n) = n := by
  interval_cases n <;> decide

theorem readBack_toDigitsCore (n : Nat) :
    List.foldl (fun acc c => acc * 10 + digitVal c) 0 (Nat.toDigitsCore 10 (n + 1) n []) = n := by
  induction n using Nat.strongRecOn with
  | _ n ih =>
    simp only [Nat.toDigitsCore]
    split
    · simp only [List.foldl]
      rw [digitVal_digitChar (Nat.mod_lt n (by omega))]
      omega
    · rw [toDigitsCore_acc, List.foldl_append]
      rw [toDigitsCore_fuel (n / 10) n (n / 10 + 1) [] (by omega) (by omega)]
      rw [ih (n / 10) (by omega)]
      simp only [List.foldl]
      rw [digitVal_digitChar (Nat.mod_lt n (by omega))]
      omega

/-- Decimal `toString` on `Nat` is injective. -/
theorem natToString_injective {m n : Nat} (h : toString m = toString n) : m = n := by
  have hm := readBack_toDigitsCore m
  have hn := readBack_toDigitsCore n
  have h' : Nat.toDigitsCore 10 (m + 1) m [] = Nat.toDigitsCore 10 (n + 1) n [] := by
    have hs : (Nat.toDigits 10 m).asString = (Nat.toDigits 10 n).asString := h
    have := congrArg String.data hs
    simpa [List.asString, Nat.toDigits] using this
  rw [h'] at hm
  omega

/-- Subtree cache keys determine the group id (for a fixed filter list). -/
theorem belowKey_inj {g g' : Nat} {fs : List FilterCriteria}
    (h : belowKey g fs = belowKey g' fs) : g = g' := by
  unfold belowKey at h
  have hd := congrArg String.data h
  simp only [String.data_append, List.append_assoc] at hd
  have hd2 := List.append_cancel_left hd
  rw [← List.append_assoc, ← List.append_assoc] at hd2
  have hd3 := List.append_cancel_right hd2
  have hd4 := List.append_cancel_right hd3
  exact natToString_injective (String.ext hd4)

/-! ## Cache lemmas -/

theorem cacheGet_setex_self {V : Type} (cache : Cache V) (key : String)
    (ttl now t2 : Nat) (v : V) (h : t2 < now + ttl) :
    cacheGet t2 (setex cache key ttl now v) key = some v := by
  simp [cacheGet, setex, h]

theorem cacheGet_some_mem {V : Type} {now : Nat} {cache : Cache V} {key : String} {v : V}
    (h : cacheGet now cache key = some v) :
    ∃ e ∈ cache, e.key = key ∧ e.value = v := by
  unfold cacheGet at h
  cases hf : cache.find? (fun e => e.key == key) with
  | none => rw [hf] at h; cases h
  | some e =>
    rw [hf] at h
    by_cases hlt : now < e.expiresAt
    · simp only [hlt, if_true] at h
      cases h
      exact ⟨e, List.mem_of_find?_eq_some hf, by simpa using List.find?_some hf, rfl⟩
    · simp only [hlt, if_false] at h
      cases h

theorem mem_setex {V : Type} {cache : Cache V} {key : String} {ttl now : Nat} {v : V}
    {e : CacheEntry V} (h : e ∈ setex cache key ttl now v) :
    e = ⟨key, v, now + ttl⟩ ∨ e ∈ cache := by
  simp only [setex, List.mem_cons] at h
  rcases h with h | h
  · exact Or.inl h
  · exact Or.inr (List.mem_of_mem_filter h)

/-- C4: if the compute callback fails (and, being a failure, writes
nothing), `getOrSetCache` propagates the failure and leaves the key
uncached, so the next call recomputes; an entry is created exactly when
the callback succeeds. -/
theorem getOrSetCache_failure_not_cached {V : Type} (now : Nat) (cache : Cache V)
    (key : String) (e : String) (cb : Cache V → Except String V × Cache V)
    (hmiss : cacheGet now cache key = none)
    (hfail : cb cache = (Except.error e, cache)) :
    getOrSetCache now cache key cb = (Except.error e, cache) ∧
    cacheGet now (getOrSetCache now cache key cb).2 key = none ∧
    (∀ (cb2 : Cache V → Except String V × Cache V) (v : V) (c2 : Cache V),
      cb2 cache = (Except.ok v, c2) →
      getOrSetCache now cache key cb2 =
        (Except.ok v, setex c2 key DEFAULT_EXPIRATION now v) ∧
      cacheGet now (setex c2 key DEFAULT_EXPIRATION now v) key = some v) := by
  have h1 : getOrSetCache now cache key cb = (Except.error e, cache) := by
    unfold getOrSetCache
    rw [hmiss, hfail]
  refine ⟨h1, by rw [h1]; exact hmiss, ?_⟩
  intro cb2 v c2 hok
  have h2 : getOrSetCache now cache key cb2 =
      (Except.ok v, setex c2 key DEFAULT_EXPIRATION now v) := by
    unfold getOrSetCache
    rw [hmiss, hok]
  exact ⟨h2, cacheGet_setex_self c2 key DEFAULT_EXPIRATION now now v (by simp [DEFAULT_EXPIRATION])⟩

theorem getOrSetCache_failure_not_cached_witness :
    getOrSetCache 0 ([] : Cache Nat) "k" (fun c => (Except.error "boom", c)) =
      (Except.error "boom", ([] : Cache Nat)) ∧
    cacheGet 0 (getOrSetCache 0 ([] : Cache Nat) "k" (fun c => (Except.error "boom", c))).2 "k" = none ∧
    (∀ (cb2 : Cache Nat → Except String Nat × Cache Nat) (v : Nat) (c2 : Cache Nat),
      cb2 [] = (Except.ok v, c2) →
      getOrSetCache 0 ([] : Cache Nat) "k" cb2 =
        (Except.ok v, setex c2 "k" DEFAULT_EXPIRATION 0 v) ∧
      cacheGet 0 (setex c2 "k" DEFAULT_EXPIRATION 0 v) "k" = some v) :=
  getOrSetCache_failure_not_cached 0 [] "k" "boom" (fun c => (Except.error "boom", c)) rfl rfl

/-- C5: whatever the first `fetchGroupHierarchyAbove` call returns, an
identical second call at the same time against the resulting cache is a
pure hit: it returns the same value and cache, regardless of the store or
recursion bound it is given (so it never recomputes), and the returned
value is exactly the live entry stored under the traversal key. -/
theorem fetchAncestors_second_call_pure_hit (db db2 : Db) (fuel fuel2 now gid : Nat)
    (cache : Cache AboveResult) (r : Except String AboveResult) (c' : Cache AboveResult)
    (h : fetchGroupHierarchyAbove db fuel now cache gid = (r, c')) :
    fetchGroupHierarchyAbove db2 fuel2 now c' gid = (r, c') ∧
    ∃ v, r = Except.ok v ∧ cacheGet now c' (aboveKey gid) = some v := by
  unfold fetchGroupHierarchyAbove getOrSetCache at h ⊢
  cases hc : cacheGet now cache (aboveKey gid) with
  | some v =>
    rw [hc] at h
    cases h
    rw [hc]
    exact ⟨rfl, v, rfl, rfl⟩
  | none =>
    rw [hc] at h
    cases h
    have hlive : cacheGet now
        (setex cache (aboveKey gid) DEFAULT_EXPIRATION now (computeAbove db fuel gid))
        (aboveKey gid) = some (computeAbove db fuel gid) :=
      cacheGet_setex_self _ _ _ _ _ _ (by simp [DEFAULT_EXPIRATION])
    rw [hlive]
    exact ⟨rfl, _, rfl, rfl⟩

theorem fetchAncestors_second_call_pure_hit_witness :
    fetchGroupHierarchyAbove ⟨[], []⟩ 7 0
        [⟨aboveKey 1, AboveResult.ok (AncestorNode.mk 1 "Root" []), 3600⟩] 1 =
      (Except.ok (AboveResult.ok (AncestorNode.mk 1 "Root" [])),
        [⟨aboveKey 1, AboveResult.ok (AncestorNode.mk 1 "Root" []), 3600⟩]) ∧
    ∃ v, (Except.ok (AboveResult.ok (AncestorNode.mk 1 "Root" [])) :
        Except String AboveResult) = Except.ok v ∧
      cacheGet 0 [⟨aboveKey 1, AboveResult.ok (AncestorNode.mk 1 "Root" []), 3600⟩]
        (aboveKey 1) = some v :=
  fetchAncestors_second_call_pure_hit ⟨[⟨1, "Root", none, 0⟩], []⟩ ⟨[], []⟩ 2 7 0 1 []
    (Except.ok (AboveResult.ok (AncestorNode.mk 1 "Root" [])))
    [⟨aboveKey 1, AboveResult.ok (AncestorNode.mk 1 "Root" []), 3600⟩] rfl

/-- C2 counterexample: the persisted ancestor key is not the documented
`group_above_<id>` — the source's template literal appends a stray closing
brace, so the actual key for id 1 is `group_above_1` followed by a brace. -/
theorem aboveKey_shape_cx :
    aboveKey 1 = "group_above_1\x7d" ∧ aboveKey 1 ≠ "group_above_1" :=
  ⟨rfl, by decide⟩

/-- C2 (amended): the persisted key shapes are `person_id_<id>`,
`all_persons`, `group_above_<id>` followed by a closing brace (the
source's extra brace), `groups_below_<id>_<json-serialized-filters>`, and
`all_groups`. -/
theorem cacheKey_shapes (id gid : Nat) (fs : List FilterCriteria) :
    personIdKey id = "person_id_" ++ toString id ∧
    allPersonsKey = "all_persons" ∧
    allGroupsKey = "all_groups" ∧
    aboveKey gid = "group_above_" ++ toString gid ++ "\x7d" ∧
    belowKey gid fs = "groups_below_" ++ toString gid ++ "_" ++ jsonFilters fs ∧
    belowKey 5 [⟨some "eng", none⟩] = "groups_below_5_[\x7b\"jobTitle\":\"eng\"\x7d]" :=
  ⟨rfl, rfl, rfl, rfl, rfl, by decide⟩

/-- C9: the same two predicates in the two orders give distinct subtree
cache keys — the serialization is order-sensitive, no canonicalization. -/
theorem belowKey_order_sensitive :
    List.Perm [FilterCriteria.mk (some "eng") none, FilterCriteria.mk none (some "Al")]
      [FilterCriteria.mk none (some "Al"), FilterCriteria.mk (some "eng") none] ∧
    belowKey 1 [FilterCriteria.mk (some "eng") none, FilterCriteria.mk none (some "Al")] ≠
      belowKey 1 [FilterCriteria.mk none (some "Al"), FilterCriteria.mk (some "eng") none] :=
  ⟨List.Perm.swap _ _ _, by decide⟩

/-- C1 fails on the code: the group-write invalidation step clears the
prefixes `groups_below_` and `groups_above_`, but ancestor entries are
keyed `group_above_<id>` plus a trailing brace — no `s`, different
prefix — so they survive every group write, and a post-write
`fetchGroupHierarchyAbove` within the TTL serves the pre-write cached
value instead of recomputing (here: the store now says "New" but the
stale "Old" chain is returned). The subtree key space and the aggregate
entry are, by contrast, correctly cleared. -/
theorem groupWrite_leaves_ancestor_cache_stale :
    invalidateGroupCaches
        [⟨aboveKey 1, AboveResult.ok (AncestorNode.mk 1 "Old" []), 3600⟩] =
      [⟨aboveKey 1, AboveResult.ok (AncestorNode.mk 1 "Old" []), 3600⟩] ∧
    "groups_above_".data.isPrefixOf (aboveKey 1).data = false ∧
    fetchGroupHierarchyAbove ⟨[⟨1, "New", none, 0⟩], []⟩ 3 0
        [⟨aboveKey 1, AboveResult.ok (AncestorNode.mk 1 "Old" []), 3600⟩] 1 =
      (Except.ok (AboveResult.ok (AncestorNode.mk 1 "Old" [])),
        [⟨aboveKey 1, AboveResult.ok (AncestorNode.mk 1 "Old" []), 3600⟩]) ∧
    computeAbove ⟨[⟨1, "New", none, 0⟩], []⟩ 3 1 =
      AboveResult.ok (AncestorNode.mk 1 "New" []) ∧
    invalidateGroupCaches
        [⟨belowKey 1 [], BelowResult.err "x", 3600⟩,
         (⟨allGroupsKey, BelowResult.err "y", 3600⟩ : CacheEntry BelowResult)] =
      [] :=
  ⟨rfl, rfl, rfl, rfl, rfl⟩

/-- C3: when the proposed new parent lies in the pre-edit descendant-id
set of the group being moved (the recursive closure the `WITH RECURSIVE`
query computes), `updateGroup` answers the structural-conflict rejection
and returns the store unchanged — no `group` row is modified. -/
theorem updateGroup_rejects_descendant_parent (db : Db) (now id : Nat)
    (gName : Option String) (newParent : Option Nat) (existing : GroupRow)
    (hex : lookupGroup db id = some existing)
    (hdesc : (descendantIds db existing.id).contains (jsNumber newParent) = true) :
    updateGroup db now id gName (some newParent) = (UpdateGroupResult.circular, db) := by
  unfold updateGroup
  rw [hex]
  dsimp only
  rw [if_pos hdesc]

theorem updateGroup_rejects_descendant_parent_witness :
    updateGroup ⟨[⟨1, "A", none, 0⟩, ⟨2, "B", some 1, 0⟩], []⟩ 99 1 none (some (some 2)) =
      (UpdateGroupResult.circular, ⟨[⟨1, "A", none, 0⟩, ⟨2, "B", some 1, 0⟩], []⟩) :=
  updateGroup_rejects_descendant_parent ⟨[⟨1, "A", none, 0⟩, ⟨2, "B", some 1, 0⟩], []⟩
    99 1 none (some 2) ⟨1, "A", none, 0⟩ rfl rfl

/-- C10: a NotFound result of either traversal is an ordinary successful
value of the compute callback, so it is cached under the traversal key;
any later call with that key inside the TTL — against any store, in
particular one where the group now exists — returns the cached NotFound
without recomputing, and leaves the cache as it is. -/
theorem notFound_memoized (db db2 : Db) (cacheA : Cache AboveResult)
    (cacheB : Cache BelowResult) (now fuel t2 fuel2 gid : Nat)
    (fs : List FilterCriteria)
    (hA : cacheGet now cacheA (aboveKey gid) = none)
    (hB : cacheGet now cacheB (belowKey gid fs) = none)
    (habs : lookupGroup db gid = none)
    (ht : t2 < now + DEFAULT_EXPIRATION) :
    ∃ cA cB,
      fetchGroupHierarchyAbove db fuel now cacheA gid =
        (Except.ok (AboveResult.err (groupNotFoundMsg gid)), cA) ∧
      fetchGroupHierarchyBelow db fs now (fuel + 1) cacheB gid =
        (BelowResult.err (groupNotFoundMsg gid), cB) ∧
      fetchGroupHierarchyAbove db2 fuel2 t2 cA gid =
        (Except.ok (AboveResult.err (groupNotFoundMsg gid)), cA) ∧
      fetchGroupHierarchyBelow db2 fs t2 fuel2 cB gid =
        (BelowResult.err (groupNotFoundMsg gid), cB) := by
  refine ⟨setex cacheA (aboveKey gid) DEFAULT_EXPIRATION now
      (AboveResult.err (groupNotFoundMsg gid)),
    setex cacheB (belowKey gid fs) DEFAULT_EXPIRATION now
      (BelowResult.err (groupNotFoundMsg gid)), ?_, ?_, ?_, ?_⟩
  · unfold fetchGroupHierarchyAbove getOrSetCache
    rw [hA]
    unfold computeAbove
    rw [habs]
  · unfold fetchGroupHierarchyBelow
    rw [hB]
    unfold fetchBelowGo
    rw [habs]
  · unfold fetchGroupHierarchyAbove getOrSetCache
    rw [cacheGet_setex_self _ _ _ _ _ _ ht]
  · cases fuel2 with
    | zero =>
      unfold fetchGroupHierarchyBelow
      rw [cacheGet_setex_self _ _ _ _ _ _ ht]
    | succ f =>
      unfold fetchGroupHierarchyBelow
      rw [cacheGet_setex_self _ _ _ _ _ _ ht]

theorem notFound_memoized_witness :
    ∃ cA cB,
      fetchGroupHierarchyAbove ⟨[], []⟩ 3 0 [] 1 =
        (Except.ok (AboveResult.err (groupNotFoundMsg 1)), cA) ∧
      fetchGroupHierarchyBelow ⟨[], []⟩ [] 0 (3 + 1) [] 1 =
        (BelowResult.err (groupNotFoundMsg 1), cB) ∧
      fetchGroupHierarchyAbove ⟨[⟨1, "Created", none, 0⟩], []⟩ 5 9 cA 1 =
        (Except.ok (AboveResult.err (groupNotFoundMsg 1)), cA) ∧
      fetchGroupHierarchyBelow ⟨[⟨1, "Created", none, 0⟩], []⟩ [] 9 5 cB 1 =
        (BelowResult.err (groupNotFoundMsg 1), cB) :=
  notFound_memoized ⟨[], []⟩ ⟨[⟨1, "Created", none, 0⟩], []⟩ [] [] 0 3 9 5 1 []
    rfl rfl rfl (by decide)

/-- Unfolding of the recursive ancestor helper at a present current row. -/
theorem fetchparent_step (db : Db) (fuel curId : Nat) (row : GroupRow)
    (h : lookupGroup db curId = some row) :
    fetchparentGroupRecursive db (fuel + 1) curId =
      match lookupGroupOpt db row.parentGroupId with
      | none => []
      | some parentRow =>
        [AncestorNode.mk parentRow.id parentRow.groupName
          (fetchparentGroupRecursive db fuel parentRow.id)] := by
  conv_lhs => rw [fetchparentGroupRecursive]
  rw [h]

/-- The ancestor list built by the recursive helper is empty or a single
chain node, at every fuel. -/
theorem fetchparent_chain (db : Db) : ∀ (fuel curId : Nat),
    fetchparentGroupRecursive db fuel curId = [] ∨
    ∃ p, fetchparentGroupRecursive db fuel curId = [p] ∧ isChain p = true := by
  intro fuel
  induction fuel with
  | zero => intro curId; exact Or.inl rfl
  | succ fuel ih =>
    intro curId
    rcases hl : lookupGroup db curId with _ | curRow
    · refine Or.inl ?_
      unfold fetchparentGroupRecursive
      rw [hl]
    · rw [fetchparent_step db fuel curId curRow hl]
      rcases hp : lookupGroupOpt db curRow.parentGroupId with _ | parentRow
      · exact Or.inl rfl
      · refine Or.inr ⟨_, rfl, ?_⟩
        rcases ih parentRow.id with h | ⟨p, h, hp2⟩
        · rw [h]; rfl
        · rw [h]
          simpa [isChain] using hp2

/-- C8: on a cache miss for a group present in the store, the ancestor
traversal returns a node that is a single chain — every level's
`parentGroup` holds at most one element — and at the root level
`parentGroup` holds exactly one element precisely when the row named by
its `parentGroupId` exists, and is empty when `parentGroupId` is null or
names a missing row (recursion stops without error). -/
theorem fetchAncestors_single_chain (db : Db) (fuel now gid : Nat)
    (cache : Cache AboveResult) (row : GroupRow)
    (hmiss : cacheGet now cache (aboveKey gid) = none)
    (hrow : lookupGroup db gid = some row) :
    ∃ node c',
      fetchGroupHierarchyAbove db (fuel + 1) now cache gid =
        (Except.ok (AboveResult.ok node), c') ∧
      isChain node = true ∧
      (node.parentGroup.length = 1 ↔ (lookupGroupOpt db row.parentGroupId).isSome = true) ∧
      (lookupGroupOpt db row.parentGroupId = none → node.parentGroup = []) := by
  have hcompute : computeAbove db (fuel + 1) gid =
      AboveResult.ok (AncestorNode.mk row.id row.groupName
        (fetchparentGroupRecursive db (fuel + 1) gid)) := by
    unfold computeAbove
    rw [hrow]
  refine ⟨AncestorNode.mk row.id row.groupName (fetchparentGroupRecursive db (fuel + 1) gid),
    setex cache (aboveKey gid) DEFAULT_EXPIRATION now (computeAbove db (fuel + 1) gid),
    ?_, ?_, ?_, ?_⟩
  · unfold fetchGroupHierarchyAbove getOrSetCache
    rw [hmiss]
    dsimp only
    rw [hcompute]
  · rcases fetchparent_chain db (fuel + 1) gid with h | ⟨p, h, hp⟩
    · rw [h]; rfl
    · rw [h]
      simpa [isChain] using hp
  · rw [AncestorNode.parentGroup, fetchparent_step db fuel gid row hrow]
    rcases hp : lookupGroupOpt db row.parentGroupId with _ | parentRow
    · simp
    · simp
  · intro hnone
    rw [AncestorNode.parentGroup, fetchparent_step db fuel gid row hrow, hnone]

theorem fetchAncestors_single_chain_witness :
    ∃ node c',
      fetchGroupHierarchyAbove ⟨[⟨1, "Root", none, 0⟩, ⟨2, "Child", some 1, 0⟩], []⟩
          (1 + 1) 0 [] 2 = (Except.ok (AboveResult.ok node), c') ∧
      isChain node = true ∧
      (node.parentGroup.length = 1 ↔
        (lookupGroupOpt ⟨[⟨1, "Root", none, 0⟩, ⟨2, "Child", some 1, 0⟩], []⟩
          (GroupRow.mk 2 "Child" (some 1) 0).parentGroupId).isSome = true) ∧
      (lookupGroupOpt ⟨[⟨1, "Root", none, 0⟩, ⟨2, "Child", some 1, 0⟩], []⟩
          (GroupRow.mk 2 "Child" (some 1) 0).parentGroupId = none →
        node.parentGroup = []) :=
  fetchAncestors_single_chain ⟨[⟨1, "Root", none, 0⟩, ⟨2, "Child", some 1, 0⟩], []⟩
    1 0 2 [] ⟨2, "Child", some 1, 0⟩ rfl rfl

/-- One unfolding of the child loop at a nonempty child list. -/
theorem processChildren_cons
    (fetchRec : Cache BelowResult → Nat → BelowResult × Cache BelowResult)
    (cache : Cache BelowResult) (a : GroupRow) (rest : List GroupRow) :
    processChildren fetchRec cache (a :: rest) =
      match fetchRec cache a.id with
      | (BelowResult.err e, c1) => (Sum.inl e, c1)
      | (BelowResult.ok node, c1) =>
        match processChildren fetchRec c1 rest with
        | (Sum.inl e, c2) => (Sum.inl e, c2)
        | (Sum.inr ns, c2) =>
          (Sum.inr (SubtreeNode.mk a.id a.groupName node.persons node.groups :: ns), c2) :=
  rfl

/-- If the child loop succeeds on an initial segment and the cached fetch
of the next child returns an `{error}` value, the loop over the whole list
stops there and returns that error unchanged. -/
theorem processChildren_short_circuit
    (fetchRec : Cache BelowResult → Nat → BelowResult × Cache BelowResult) :
    ∀ (l1 : List GroupRow) (cache c1 : Cache BelowResult) (ns : List SubtreeNode)
      (c : GroupRow) (rest : List GroupRow) (e : String) (c2 : Cache BelowResult),
      processChildren fetchRec cache l1 = (Sum.inr ns, c1) →
      fetchRec c1 c.id = (BelowResult.err e, c2) →
      processChildren fetchRec cache (l1 ++ c :: rest) = (Sum.inl e, c2) := by
  intro l1
  induction l1 with
  | nil =>
    intro cache c1 ns c rest e c2 h1 h2
    have hc : cache = c1 := congrArg Prod.snd h1
    subst hc
    rw [List.nil_append, processChildren_cons, h2]
  | cons a l ih =>
    intro cache c1 ns c rest e c2 h1 h2
    rw [List.cons_append]
    rw [processChildren_cons] at h1 ⊢
    rcases hfa : fetchRec cache a.id with ⟨r1, ca⟩
    rw [hfa] at h1
    cases r1 with
    | err e' => simp at h1
    | ok node =>
      simp at h1
      rcases hrec : processChildren fetchRec ca l with ⟨r2, cb⟩
      rw [hrec] at h1
      cases r2 with
      | inl e' => simp at h1
      | inr ms =>
        simp at h1
        obtain ⟨hns, hcb⟩ := h1
        subst hcb
        have hih := ih ca cb ms c rest e c2 hrec h2
        simp [hih]

/-- On a cache miss, one step of the subtree traversal is its compute
body over the recursive fetch at one less fuel. -/
theorem fetchBelow_miss_step (db : Db) (fs : List FilterCriteria) (now fuel gid : Nat)
    (cache : Cache BelowResult)
    (hmiss : cacheGet now cache (belowKey gid fs) = none) :
    fetchGroupHierarchyBelow db fs now (fuel + 1) cache gid =
      fetchBelowGo db fs now (fetchGroupHierarchyBelow db fs now fuel) cache gid := by
  unfold fetchGroupHierarchyBelow
  rw [hmiss]

/-- On a live entry, the subtree traversal returns the cached value and
leaves the cache unchanged, at any fuel. -/
theorem fetchBelow_hit (db : Db) (fs : List FilterCriteria) (now fuel gid : Nat)
    (cache : Cache BelowResult) (v : BelowResult)
    (hhit : cacheGet now cache (belowKey gid fs) = some v) :
    fetchGroupHierarchyBelow db fs now fuel cache gid = (v, cache) := by
  cases fuel with
  | zero => unfold fetchGroupHierarchyBelow; rw [hhit]
  | succ f => unfold fetchGroupHierarchyBelow; rw [hhit]

/-- C6: on a cache miss, the subtree traversal returns (and caches) the
NotFound error when the root row is absent; when a child's recursive
(cached) call returns an error value after the earlier siblings
succeeded, the whole call returns exactly that error without assembling a
partial tree; and a successful node is produced only when the root row
exists and the child loop succeeded for every direct child. -/
theorem fetchSubtree_notFound_short_circuits (db : Db) (fs : List FilterCriteria)
    (now fuel gid : Nat) (cache : Cache BelowResult)
    (hmiss : cacheGet now cache (belowKey gid fs) = none) :
    (lookupGroup db gid = none →
      fetchGroupHierarchyBelow db fs now (fuel + 1) cache gid =
        (BelowResult.err (groupNotFoundMsg gid),
          setex cache (belowKey gid fs) DEFAULT_EXPIRATION now
            (BelowResult.err (groupNotFoundMsg gid)))) ∧
    (∀ (row : GroupRow) (l1 : List GroupRow) (c : GroupRow) (rest : List GroupRow)
        (ns : List SubtreeNode) (c1 c2 : Cache BelowResult) (e : String),
      lookupGroup db gid = some row →
      childGroups db gid = l1 ++ c :: rest →
      processChildren (fetchGroupHierarchyBelow db fs now fuel) cache l1 = (Sum.inr ns, c1) →
      fetchGroupHierarchyBelow db fs now fuel c1 c.id = (BelowResult.err e, c2) →
      fetchGroupHierarchyBelow db fs now (fuel + 1) cache gid =
        (BelowResult.err e,
          setex c2 (belowKey gid fs) DEFAULT_EXPIRATION now (BelowResult.err e))) ∧
    (∀ (node : SubtreeNode) (c' : Cache BelowResult),
      fetchGroupHierarchyBelow db fs now (fuel + 1) cache gid = (BelowResult.ok node, c') →
      (∃ row, lookupGroup db gid = some row) ∧
      (∃ ns c1, processChildren (fetchGroupHierarchyBelow db fs now fuel) cache
          (childGroups db gid) = (Sum.inr ns, c1))) := by
  refine ⟨?_, ?_, ?_⟩
  · intro hnone
    rw [fetchBelow_miss_step db fs now fuel gid cache hmiss]
    unfold fetchBelowGo
    rw [hnone]
  · intro row l1 c rest ns c1 c2 e hrow hchild hpre hc
    rw [fetchBelow_miss_step db fs now fuel gid cache hmiss]
    unfold fetchBelowGo
    rw [hrow, hchild,
      processChildren_short_circuit (fetchGroupHierarchyBelow db fs now fuel)
        l1 cache c1 ns c rest e c2 hpre hc]
  · intro node c' h
    rw [fetchBelow_miss_step db fs now fuel gid cache hmiss] at h
    unfold fetchBelowGo at h
    rcases hrow : lookupGroup db gid with _ | row
    · rw [hrow] at h
      simp at h
    · rw [hrow] at h
      refine ⟨⟨row, rfl⟩, ?_⟩
      rcases hpc : processChildren (fetchGroupHierarchyBelow db fs now fuel) cache
          (childGroups db gid) with ⟨res, c1⟩
      rw [hpc] at h
      cases res with
      | inl e => simp at h
      | inr ns => exact ⟨ns, c1, rfl⟩

theorem fetchSubtree_notFound_short_circuits_witness :
    (lookupGroup ⟨[⟨1, "Root", none, 0⟩, ⟨2, "Child", some 1, 0⟩], []⟩ 1 = none →
      fetchGroupHierarchyBelow ⟨[⟨1, "Root", none, 0⟩, ⟨2, "Child", some 1, 0⟩], []⟩ [] 0
          (1 + 1) [⟨belowKey 2 [], BelowResult.err "stale child error", 3600⟩] 1 =
        (BelowResult.err (groupNotFoundMsg 1),
          setex [⟨belowKey 2 [], BelowResult.err "stale child error", 3600⟩]
            (belowKey 1 []) DEFAULT_EXPIRATION 0
            (BelowResult.err (groupNotFoundMsg 1)))) ∧
    (∀ (row : GroupRow) (l1 : List GroupRow) (c : GroupRow) (rest : List GroupRow)
        (ns : List SubtreeNode) (c1 c2 : Cache BelowResult) (e : String),
      lookupGroup ⟨[⟨1, "Root", none, 0⟩, ⟨2, "Child", some 1, 0⟩], []⟩ 1 = some row →
      childGroups ⟨[⟨1, "Root", none, 0⟩, ⟨2, "Child", some 1, 0⟩], []⟩ 1 = l1 ++ c :: rest →
      processChildren
          (fetchGroupHierarchyBelow ⟨[⟨1, "Root", none, 0⟩, ⟨2, "Child", some 1, 0⟩], []⟩ [] 0 1)
          [⟨belowKey 2 [], BelowResult.err "stale child error", 3600⟩] l1 = (Sum.inr ns, c1) →
      fetchGroupHierarchyBelow ⟨[⟨1, "Root", none, 0⟩, ⟨2, "Child", some 1, 0⟩], []⟩ [] 0 1
          c1 c.id = (BelowResult.err e, c2) →
      fetchGroupHierarchyBelow ⟨[⟨1, "Root", none, 0⟩, ⟨2, "Child", some 1, 0⟩], []⟩ [] 0
          (1 + 1) [⟨belowKey 2 [], BelowResult.err "stale child error", 3600⟩] 1 =
        (BelowResult.err e,
          setex c2 (belowKey 1 []) DEFAULT_EXPIRATION 0 (BelowResult.err e))) ∧
    (∀ (node : SubtreeNode) (c' : Cache BelowResult),
      fetchGroupHierarchyBelow ⟨[⟨1, "Root", none, 0⟩, ⟨2, "Child", some 1, 0⟩], []⟩ [] 0
          (1 + 1) [⟨belowKey 2 [], BelowResult.err "stale child error", 3600⟩] 1 =
        (BelowResult.ok node, c') →
      (∃ row, lookupGroup ⟨[⟨1, "Root", none, 0⟩, ⟨2, "Child", some 1, 0⟩], []⟩ 1 = some row) ∧
      (∃ ns c1, processChildren
          (fetchGroupHierarchyBelow ⟨[⟨1, "Root", none, 0⟩, ⟨2, "Child", some 1, 0⟩], []⟩ [] 0 1)
          [⟨belowKey 2 [], BelowResult.err "stale child error", 3600⟩]
          (childGroups ⟨[⟨1, "Root", none, 0⟩, ⟨2, "Child", some 1, 0⟩], []⟩ 1) =
        (Sum.inr ns, c1))) :=
  fetchSubtree_notFound_short_circuits ⟨[⟨1, "Root", none, 0⟩, ⟨2, "Child", some 1, 0⟩], []⟩
    [] 0 1 1 [⟨belowKey 2 [], BelowResult.err "stale child error", 3600⟩] rfl

/-- A well-formed node's `persons` field is the filtered member list and
its children are well-formed. -/
theorem NodeOk.inv {db : Db} {fs : List FilterCriteria} {t : SubtreeNode}
    (h : NodeOk db fs t) :
    t.persons = personsMatching db t.id fs ∧ ∀ g ∈ t.groups, NodeOk db fs g := by
  cases h with
  | mk i nm gs hgs => exact ⟨rfl, hgs⟩

theorem nodesOfList_mem {n : SubtreeNode} :
    ∀ {gs : List SubtreeNode}, n ∈ nodesOfList gs → ∃ g ∈ gs, n ∈ nodesOf g := by
  intro gs
  induction gs with
  | nil => intro h; cases h
  | cons g gs ih =>
    intro h
    rw [nodesOfList] at h
    rcases List.mem_append.mp h with h | h
    · exact ⟨g, List.mem_cons_self g gs, h⟩
    · obtain ⟨g', hg', hn⟩ := ih h
      exact ⟨g', List.mem_cons_of_mem g hg', hn⟩

/-- Every node of a well-formed subtree carries exactly the conjunctively
filtered persons of its own group. -/
theorem NodeOk_nodesOf {db : Db} {fs : List FilterCriteria} :
    ∀ t : SubtreeNode, NodeOk db fs t →
      ∀ n ∈ nodesOf t, n.persons = personsMatching db n.id fs := by
  intro t h
  induction h with
  | mk i nm gs hgs ih =>
    intro n hn
    rw [nodesOf] at hn
    rcases List.mem_cons.mp hn with rfl | hn
    · rfl
    · obtain ⟨g, hg, hng⟩ := nodesOfList_mem hn
      exact ih g hg n hng

/-- Storing a value under the subtree key of `gid` preserves the
invariant when any successful stored value is the well-formed subtree of
`gid` itself. -/
theorem belowInv_setex {db : Db} {fs : List FilterCriteria} {cache : Cache BelowResult}
    {gid : Nat} {v : BelowResult} (ttl now : Nat)
    (hinv : BelowInv db fs cache)
    (hv : ∀ node, v = BelowResult.ok node → node.id = gid ∧ NodeOk db fs node) :
    BelowInv db fs (setex cache (belowKey gid fs) ttl now v) := by
  intro e he g hkey node hval
  rcases mem_setex he with rfl | he'
  · obtain ⟨hid, hok⟩ := hv node hval
    have : gid = g := belowKey_inj hkey
    exact ⟨by rw [hid, this], hok⟩
  · exact hinv e he' g hkey node hval

/-- A live subtree entry under `gid`'s key holds, if successful, the
well-formed subtree of `gid`. -/
theorem belowInv_hit {db : Db} {fs : List FilterCriteria} {cache : Cache BelowResult}
    {now gid : Nat} {v : BelowResult}
    (hinv : BelowInv db fs cache)
    (hhit : cacheGet now cache (belowKey gid fs) = some v) :
    ∀ node, v = BelowResult.ok node → node.id = gid ∧ NodeOk db fs node := by
  intro node hval
  obtain ⟨e, he, hkey, hvalue⟩ := cacheGet_some_mem hhit
  exact hinv e he gid hkey node (by rw [hvalue, hval])

/-- The child loop preserves the invariant and, on success, yields one
well-formed node per child, provided the per-child fetch is sound. -/
theorem processChildren_inv (db : Db) (fs : List FilterCriteria)
    (fetch : Cache BelowResult → Nat → BelowResult × Cache BelowResult)
    (hfetch : FetchOkProp db fs fetch) :
    ∀ (l : List GroupRow) (cache : Cache BelowResult)
      (res : String ⊕ List SubtreeNode) (c' : Cache BelowResult),
      BelowInv db fs cache →
      processChildren fetch cache l = (res, c') →
      BelowInv db fs c' ∧
      ∀ ns, res = Sum.inr ns → ∀ n ∈ ns, NodeOk db fs n := by
  intro l
  induction l with
  | nil =>
    intro cache res c' hinv h
    rw [processChildren] at h
    cases h
    refine ⟨hinv, ?_⟩
    intro ns hns n hn
    cases hns
    cases hn
  | cons c rest ih =>
    intro cache res c' hinv h
    rw [processChildren_cons] at h
    rcases hf : fetch cache c.id with ⟨r1, ca⟩
    rw [hf] at h
    obtain ⟨hinv1, hok1⟩ := hfetch cache c.id r1 ca hinv hf
    cases r1 with
    | err e =>
      simp only at h
      cases h
      refine ⟨hinv1, ?_⟩
      intro ns hns
      cases hns
    | ok node =>
      simp only at h
      rcases hrec : processChildren fetch ca rest with ⟨r2, cb⟩
      rw [hrec] at h
      obtain ⟨hinv2, hok2⟩ := ih ca r2 cb hinv1 hrec
      cases r2 with
      | inl e =>
        simp only at h
        cases h
        refine ⟨hinv2, ?_⟩
        intro ns hns
        cases hns
      | inr ms =>
        simp only at h
        cases h
        refine ⟨hinv2, ?_⟩
        intro ns hns n hn
        cases hns
        obtain ⟨hid, hnode⟩ := hok1 node rfl
        rcases List.mem_cons.mp hn with rfl | hn
        · cases hnode with
          | mk i nm gs hgs =>
            simp only [SubtreeNode.id] at hid
            subst hid
            exact NodeOk.mk c.id c.groupName gs hgs
        · exact hok2 ms rfl n hn

/-- At zero fuel and a cache miss the model returns its fuel marker
without caching (the source would recurse instead; unreachable on the
acyclic trees the write path maintains). -/
theorem fetchBelow_zero_miss (db : Db) (fs : List FilterCriteria) (now gid : Nat)
    (cache : Cache BelowResult)
    (hmiss : cacheGet now cache (belowKey gid fs) = none) :
    fetchGroupHierarchyBelow db fs now 0 cache gid =
      (BelowResult.err outOfFuelMsg, cache) := by
  unfold fetchGroupHierarchyBelow
  rw [hmiss]

/-- Soundness of the cached subtree traversal, at every fuel: it
preserves the cache invariant, and any successful result is the
well-formed subtree of the requested group. -/
theorem fetchBelow_inv (db : Db) (fs : List FilterCriteria) (now : Nat) :
    ∀ fuel, FetchOkProp db fs (fetchGroupHierarchyBelow db fs now fuel) := by
  intro fuel
  induction fuel with
  | zero =>
    intro cache gid r c' hinv h
    rcases hc : cacheGet now cache (belowKey gid fs) with _ | v
    · rw [fetchBelow_zero_miss db fs now gid cache hc] at h
      cases h
      exact ⟨hinv, by intro node hval; cases hval⟩
    · rw [fetchBelow_hit db fs now 0 gid cache v hc] at h
      cases h
      exact ⟨hinv, belowInv_hit hinv hc⟩
  | succ fuel ih =>
    intro cache gid r c' hinv h
    rcases hc : cacheGet now cache (belowKey gid fs) with _ | v
    · rw [fetchBelow_miss_step db fs now fuel gid cache hc] at h
      unfold fetchBelowGo at h
      rcases hrow : lookupGroup db gid with _ | row
      · rw [hrow] at h
        simp only at h
        cases h
        refine ⟨belowInv_setex _ _ hinv ?_, ?_⟩
        · intro node hval; cases hval
        · intro node hval; cases hval
      · rw [hrow] at h
        rcases hpc : processChildren (fetchGroupHierarchyBelow db fs now fuel) cache
            (childGroups db gid) with ⟨res, c1⟩
        rw [hpc] at h
        obtain ⟨hinv1, hok1⟩ :=
          processChildren_inv db fs _ ih (childGroups db gid) cache res c1 hinv hpc
        cases res with
        | inl e =>
          simp only at h
          cases h
          refine ⟨belowInv_setex _ _ hinv1 ?_, ?_⟩
          · intro node hval; cases hval
          · intro node hval; cases hval
        | inr ns =>
          simp only at h
          cases h
          refine ⟨belowInv_setex _ _ hinv1 ?_, ?_⟩
          · intro node hval
            cases hval
            exact ⟨rfl, NodeOk.mk gid row.groupName ns (hok1 ns rfl)⟩
          · intro node hval
            cases hval
            exact ⟨rfl, NodeOk.mk gid row.groupName ns (hok1 ns rfl)⟩
    · rw [fetchBelow_hit db fs now (fuel + 1) gid cache v hc] at h
      cases h
      exact ⟨hinv, belowInv_hit hinv hc⟩

/-- C7: starting from a cache with no subtree entry for the current
filter list, a successful subtree fetch returns a tree in which every
level's `persons` array contains exactly the persons directly assigned to
that level's group that satisfy every contributed filter condition
(conjunctive match), the identical filter list being applied at every
child level; and the empty filter list contributes no condition, so it
keeps every directly assigned person. -/
theorem fetchSubtree_persons_conjunctive (db : Db) (fs : List FilterCriteria)
    (now fuel gid : Nat) (cache : Cache BelowResult) (root : SubtreeNode)
    (c' : Cache BelowResult)
    (hclean : ∀ e ∈ cache, ∀ g : Nat, e.key ≠ belowKey g fs)
    (hrun : fetchGroupHierarchyBelow db fs now fuel cache gid = (BelowResult.ok root, c')) :
    (∀ n ∈ nodesOf root, n.persons = personsMatching db n.id fs) ∧
    (∀ g : Nat, personsMatching db g [] =
      (db.persons.filter (fun p => p.groupId == some g)).map
        (fun p => (⟨p.id, p.firstName, p.lastName, p.jobTitle⟩ : Person))) := by
  have hinv : BelowInv db fs cache := by
    intro e he g hkey node hval
    exact absurd hkey (hclean e he g)
  obtain ⟨hinv', hok⟩ := fetchBelow_inv db fs now fuel cache gid _ c' hinv hrun
  obtain ⟨hid, hnode⟩ := hok root rfl
  refine ⟨NodeOk_nodesOf root hnode, ?_⟩
  intro g
  unfold personsMatching
  simp

theorem fetchSubtree_persons_conjunctive_witness :
    (∀ n ∈ nodesOf (SubtreeNode.mk 1 "Root" []
        [SubtreeNode.mk 2 "Child" [⟨10, "Alice", "A", "eng"⟩] []]),
      n.persons = personsMatching
        ⟨[⟨1, "Root", none, 0⟩, ⟨2, "Child", some 1, 0⟩],
         [⟨10, "Alice", "A", "eng", some 2⟩, ⟨11, "Bob", "B", "sales", some 2⟩]⟩
        n.id [⟨some "eng", none⟩]) ∧
    (∀ g : Nat, personsMatching
        ⟨[⟨1, "Root", none, 0⟩, ⟨2, "Child", some 1, 0⟩],
         [⟨10, "Alice", "A", "eng", some 2⟩, ⟨11, "Bob", "B", "sales", some 2⟩]⟩
        g [] =
      ((⟨[⟨1, "Root", none, 0⟩, ⟨2, "Child", some 1, 0⟩],
         [⟨10, "Alice", "A", "eng", some 2⟩, ⟨11, "Bob", "B", "sales", some 2⟩]⟩ : Db).persons.filter
          (fun p => p.groupId == some g)).map
        (fun p => (⟨p.id, p.firstName, p.lastName, p.jobTitle⟩ : Person))) :=
  fetchSubtree_persons_conjunctive
    ⟨[⟨1, "Root", none, 0⟩, ⟨2, "Child", some 1, 0⟩],
     [⟨10, "Alice", "A", "eng", some 2⟩, ⟨11, "Bob", "B", "sales", some 2⟩]⟩
    [⟨some "eng", none⟩] 0 5 1 []
    (SubtreeNode.mk 1 "Root" [] [SubtreeNode.mk 2 "Child" [⟨10, "Alice", "A", "eng"⟩] []])
    [⟨belowKey 1 [⟨some "eng", none⟩],
      BelowResult.ok (SubtreeNode.mk 1 "Root" []
        [SubtreeNode.mk 2 "Child" [⟨10, "Alice", "A", "eng"⟩] []]), 3600⟩,
     ⟨belowKey 2 [⟨some "eng", none⟩],
      BelowResult.ok (SubtreeNode.mk 2 "Child" [⟨10, "Alice", "A", "eng"⟩] []), 3600⟩]
    (by intro e he g; cases he) rfl
